import Mathlib

/-!
Verification of the map-reduce repository (golang entry point `main.go`,
wire protocol `mapreduce.proto`, and the coordinator core specified in the
design document) against its natural-language specification.

Shallow embedding: the Go entry point is modelled as pure functions over the
argument list; external effects (plugin loading, the `Done()` poll) are
modelled as explicit environments.  The coordinator core (Task Registry,
Scheduler, Phase Controller, Result Assembler) is not part of the visible
source tree, so it is modelled from the specification text.
-/

namespace MapReduce

/-! ## Wire protocol (from mapreduce.proto) -/

/-- Key-value pair for intermediate results (proto message `KeyValuePair`). -/
structure KeyValuePair where
  key : String
  value : String
deriving DecidableEq, Repr

/-- Proto message `MapRequest`: the file path to process and the map
function name. -/
structure MapRequest where
  file_path : String
  map_function : String
deriving DecidableEq, Repr

/-- Proto message `MapResponse`: intermediate key-value pairs. -/
structure MapResponse where
  intermediate_results : List KeyValuePair
deriving DecidableEq, Repr

/-- Proto message `ReduceRequest`: intermediate results and the reduce
function name. -/
structure ReduceRequest where
  intermediate_results : List KeyValuePair
  reduce_function : String
deriving DecidableEq, Repr

/-- Proto message `ReduceResponse`: the final result string. -/
structure ReduceResponse where
  final_result : String
deriving DecidableEq, Repr

/-- Proto message `PingRequest`: no payload. -/
structure PingRequest where
deriving DecidableEq, Repr

/-- Proto message `PingResponse`: worker status string. -/
structure PingResponse where
  status : String
deriving DecidableEq, Repr

/-- The three rpcs of proto service `MapReduceService`. -/
inductive RpcOp
  | map
  | reduce
  | ping
deriving DecidableEq, Repr

/-- Request message type of each rpc of `MapReduceService`. -/
def requestType : RpcOp → Type
  | .map => MapRequest
  | .reduce => ReduceRequest
  | .ping => PingRequest

/-- Response message type of each rpc of `MapReduceService`. -/
def responseType : RpcOp → Type
  | .map => MapResponse
  | .reduce => ReduceResponse
  | .ping => PingResponse

/-- A `KeyValuePair` as a plain (key, value) pair of strings. -/
def KeyValuePair.toPair (kv : KeyValuePair) : String × String :=
  (kv.key, kv.value)

/-- A `MapRequest` as its payload shape: (file path, map function name). -/
def MapRequest.shape (r : MapRequest) : String × String :=
  (r.file_path, r.map_function)

/-- A `MapResponse` as its payload shape: a list of (key, value) pairs. -/
def MapResponse.shape (r : MapResponse) : List (String × String) :=
  r.intermediate_results.map KeyValuePair.toPair

/-- A `ReduceRequest` as its payload shape: (pairs, reduce function name). -/
def ReduceRequest.shape (r : ReduceRequest) : List (String × String) × String :=
  (r.intermediate_results.map KeyValuePair.toPair, r.reduce_function)

/-- A `ReduceResponse` as its payload shape: a single string. -/
def ReduceResponse.shape (r : ReduceResponse) : String :=
  r.final_result

/-- A `PingRequest` as its payload shape: no payload. -/
def PingRequest.shape (_ : PingRequest) : Unit := ()

/-- A `PingResponse` as its payload shape: a single status string. -/
def PingResponse.shape (r : PingResponse) : String :=
  r.status

/-! ## Entry point (from main.go) -/

/-- Constant `coordinatorArg` of main.go. -/
def coordinatorArg : String := "mrcoordinator"

/-- Constant `workerArg` of main.go. -/
def workerArg : String := "mrworker"

/-- Constant `minArgs` of main.go. -/
def minArgs : Nat := 3

/-- The arguments `MakeCoordinator` is constructed with in
`runCoordinator`: `mr.MakeCoordinator(os.Args[2:], 10)`. -/
structure CoordinatorInit where
  inputSplits : List String
  nReduce : Nat
deriving DecidableEq, Repr

/-- What `runCoordinator` passes to `mr.MakeCoordinator`: the argument
list from position 2 onward, and the fixed reduce count 10. -/
def coordinatorInit (args : List String) : CoordinatorInit :=
  { inputSplits := args.drop 2, nReduce := 10 }

/-- Outcome of `run` in main.go: either one of the two error returns, or
the process proceeds as a coordinator or as a worker. -/
inductive RunOutcome
  | usageError
  | invalidMode (arg : String)
  | coordinator (init : CoordinatorInit)
  | worker (pluginFile : String)
deriving DecidableEq, Repr

/-- `run` returns a non-nil error in exactly the first two cases. -/
def RunOutcome.isError : RunOutcome → Bool
  | .usageError => true
  | .invalidMode _ => true
  | .coordinator _ => false
  | .worker _ => false

/-- The dispatch logic of `run` in main.go: reject fewer than `minArgs`
arguments with the usage error, switch on `os.Args[1]`, reject an unknown
mode with the invalid-argument error. -/
def run (args : List String) : RunOutcome :=
  if args.length < minArgs then .usageError
  else if args.getD 1 "" = coordinatorArg then .coordinator (coordinatorInit args)
  else if args.getD 1 "" = workerArg then .worker (args.getD 2 "")
  else .invalidMode (args.getD 1 "")

/-- The polling loop of `runCoordinator`: `for !m.Done() { sleep }` then
`return nil`.  `done k` is what `m.Done()` reports on the k-th poll; the
fuel argument bounds how many polls we observe, `none` meaning the loop is
still running after that many polls.  On termination the function returns
nil (modelled as `Except.ok ()`). -/
def coordinatorLoop (done : Nat → Bool) : Nat → Nat → Option (Except String Unit)
  | _, 0 => none
  | i, fuel + 1 => if done i then some (Except.ok ()) else coordinatorLoop done (i + 1) fuel

/-! ## Plugin loading (from main.go `loadPlugin` / `runWorker`) -/

/-- Go struct `mr.KeyValue`, the element type of a Map function's output. -/
structure KeyValue where
  key : String
  value : String

/-- The type of a user Map function: `func(string, string) []mr.KeyValue`. -/
abbrev MapFn := String → String → List KeyValue

/-- The type of a user Reduce function: `func(string, []string) string`. -/
abbrev ReduceFn := String → List String → String

/-- A symbol exported by a Go plugin, tagged with its dynamic type: a Map
function, a Reduce function, or a value of any other type. -/
inductive PluginSymbol
  | mapFn (f : MapFn)
  | reduceFn (f : ReduceFn)
  | other

/-- A loaded Go plugin: its exported symbols by name. -/
structure GoPlugin where
  lookup : String → Option PluginSymbol

/-- The environment `plugin.Open` runs against: which files open as plugins. -/
structure PluginEnv where
  openPlugin : String → Option GoPlugin

/-- Result of `loadPlugin`: either both functions with nil error, or a
non-nil error, or a runtime panic from a failed type assertion. -/
inductive LoadResult
  | ok (mapf : MapFn) (reducef : ReduceFn)
  | err (msg : String)
  | panicked

/-- `LoadResult` equality is not needed; classify the constructor instead. -/
def LoadResult.isOk : LoadResult → Bool
  | .ok _ _ => true
  | _ => false

/-- `loadPlugin` of main.go: open the plugin file, look up symbols `Map`
then `Reduce` (each lookup failure returns an error), then perform the two
unchecked type assertions `mapf.(func(string, string) []mr.KeyValue)` and
`reducef.(func(string, []string) string)` — a symbol of any other type
panics rather than returning an error. -/
def loadPlugin (env : PluginEnv) (filename : String) : LoadResult :=
  match env.openPlugin filename with
  | none => .err ("cannot load plugin " ++ filename)
  | some p =>
    match p.lookup "Map" with
    | none => .err "cannot find Map in plugin"
    | some s =>
      match p.lookup "Reduce" with
      | none => .err "cannot find Reduce in plugin"
      | some t =>
        match s with
        | .mapFn m =>
          match t with
          | .reduceFn r => .ok m r
          | _ => .panicked
        | _ => .panicked

/-- Outcome of `runWorker`: the worker loop starts with the two resolved
functions, or the function returns the load error, or the process panics. -/
inductive WorkerOutcome
  | started (mapf : MapFn) (reducef : ReduceFn)
  | failed (msg : String)
  | panicked

/-- `runWorker` of main.go: load the plugin named by `os.Args[2]`; on a
non-nil error return it (the worker never starts), otherwise call
`mr.Worker(mapf, reducef)`. -/
def runWorker (env : PluginEnv) (args : List String) : WorkerOutcome :=
  match loadPlugin env (args.getD 2 "") with
  | .ok m r => .started m r
  | .err e => .failed e
  | .panicked => .panicked

/-! ## Task Registry (modelled from the spec, §3 / §4.1)

The coordinator core is not in the visible source tree; its Task Registry
is modelled from the specification text. -/

/-- Modelled from the spec: a task's status is Pending, Dispatched (with
assigned worker and dispatch deadline, set only while Dispatched), or
Completed (with result payload, set only when Completed).  The missing
source is the coordinator's task-registry module. -/
inductive TaskStatus
  | pending
  | dispatched (worker : Nat) (deadline : Nat)
  | completed (result : String)
deriving DecidableEq, Repr

/-- The registry for one task kind: statuses indexed by task identifier. -/
abbrev Registry := List TaskStatus

/-- Whether a status is Completed. -/
def TaskStatus.isCompleted : TaskStatus → Bool
  | .completed _ => true
  | _ => false

/-- Whether every task of a registry is Completed. -/
def allCompleted (reg : Registry) : Bool :=
  reg.all TaskStatus.isCompleted

/-- Modelled from the spec: `markCompleted(taskId, result)` records the
result for a task; it is a no-op (not an error) if the task is already
Completed.  The missing source is the coordinator's task-registry module. -/
def markCompleted (reg : Registry) (id : Nat) (res : String) : Registry :=
  match reg[id]? with
  | some (.completed _) => reg
  | some _ => reg.set id (.completed res)
  | none => reg

/-- Modelled from the spec: `markTimedOut(taskId)` transitions
Dispatched→Pending only if the task is still Dispatched for the deadline
that expired; a task already Completed (a result arrived concurrently) or
re-dispatched under a new deadline is left unchanged.  The missing source
is the coordinator's task-registry module. -/
def markTimedOut (reg : Registry) (id : Nat) (deadline : Nat) : Registry :=
  match reg[id]? with
  | some (.dispatched _ d) => if d = deadline then reg.set id .pending else reg
  | _ => reg

/-- Whether a task is eligible for selection by `dispatchNext` (the spec's
Scheduler dispatches only Pending tasks). -/
def canDispatch (reg : Registry) (id : Nat) : Prop :=
  reg[id]? = some TaskStatus.pending

/-! ## Job state machine (modelled from the spec, §3 / §4.4) -/

/-- Modelled from the spec: JobState phase ∈ \x7bMapping, Reducing, Done\x7d.
The missing source is the coordinator's phase-controller module. -/
inductive Phase
  | mapping
  | reducing
  | jobDone
deriving DecidableEq, Repr

/-- Numeric rank of a phase, for stating monotonicity. -/
def Phase.rank : Phase → Nat
  | .mapping => 0
  | .reducing => 1
  | .jobDone => 2

/-- Modelled from the spec: the coordinator's job state — the phase and the
authoritative registries of Map tasks and Reduce tasks.  The missing
source is the coordinator's phase-controller and task-registry modules. -/
structure MRState where
  phase : Phase
  mapTasks : Registry
  reduceTasks : Registry
deriving DecidableEq, Repr

/-- Modelled from the spec: job state at coordinator startup — phase
Mapping, one Pending MapTask per input split, and no ReduceTasks yet
(ReduceTasks are materialized at the Mapping→Reducing transition). -/
def initState (numMapTasks : Nat) : MRState :=
  { phase := .mapping
    mapTasks := List.replicate numMapTasks .pending
    reduceTasks := [] }

/-- Modelled from the spec (§4.1, §4.3, §4.4): one atomic transition of the
coordinator's shared consistency domain.  Map tasks are dispatched only in
Mapping, Reduce tasks only in Reducing; responses (`markCompleted`) and
deadline expiries (`markTimedOut`) may arrive at any time and are guarded
by the registry operations themselves; the phase advances Mapping→Reducing
exactly when every MapTask is Completed (materializing R Pending
ReduceTasks) and Reducing→Done exactly when every ReduceTask is Completed.
The missing source is the coordinator core. -/
inductive Step : MRState → MRState → Prop
  | dispatchMap (s : MRState) (i w dl : Nat) :
      s.phase = .mapping → s.mapTasks[i]? = some TaskStatus.pending →
      Step s { s with mapTasks := s.mapTasks.set i (.dispatched w dl) }
  | respondMap (s : MRState) (i : Nat) (res : String) :
      Step s { s with mapTasks := markCompleted s.mapTasks i res }
  | timeoutMap (s : MRState) (i dl : Nat) :
      Step s { s with mapTasks := markTimedOut s.mapTasks i dl }
  | toReducing (s : MRState) (R : Nat) :
      s.phase = .mapping → allCompleted s.mapTasks = true →
      Step s { s with phase := .reducing, reduceTasks := List.replicate R .pending }
  | dispatchReduce (s : MRState) (i w dl : Nat) :
      s.phase = .reducing → s.reduceTasks[i]? = some TaskStatus.pending →
      Step s { s with reduceTasks := s.reduceTasks.set i (.dispatched w dl) }
  | respondReduce (s : MRState) (i : Nat) (res : String) :
      Step s { s with reduceTasks := markCompleted s.reduceTasks i res }
  | timeoutReduce (s : MRState) (i dl : Nat) :
      Step s { s with reduceTasks := markTimedOut s.reduceTasks i dl }
  | toDone (s : MRState) :
      s.phase = .reducing → allCompleted s.reduceTasks = true →
      Step s { s with phase := .jobDone }

/-- States reachable from the startup state by coordinator transitions. -/
def Reachable (numMapTasks : Nat) (s : MRState) : Prop :=
  Relation.ReflTransGen Step (initState numMapTasks) s

/-! ## Result Assembler partitioning (modelled from the spec, §4.5) -/

/-- Modelled from the spec: within a partition, intermediate records are
grouped by key — one entry per distinct key (in first-appearance order),
carrying every value for that key in one sequence.  The missing source is
the coordinator's result-assembler module. -/
def groupByKey (l : List (String × String)) : List (String × List String) :=
  (l.map Prod.fst).dedup.map
    (fun k => (k, (l.filter (fun kv => kv.1 = k)).map Prod.snd))

/-- Modelled from the spec: `partitionForReduce(R)` splits the buffered
intermediate records into R groups, group p containing every record whose
key hashes to p (`hash(key) mod R`), each group internally grouped by key.
The missing source is the coordinator's result-assembler module. -/
def partitionForReduce (hash : String → Nat) (R : Nat)
    (buffer : List (String × String)) : List (List (String × List String)) :=
  (List.range R).map
    (fun p => groupByKey (buffer.filter (fun kv => hash kv.1 % R = p)))

/-- Build a `KeyValuePair` from a plain (key, value) pair. -/
def pairToKV (p : String × String) : KeyValuePair :=
  { key := p.1, value := p.2 }

/-- A well-formed plugin: exports `Map` and `Reduce` at the expected types. -/
def examplePlugin : GoPlugin :=
  { lookup := fun n =>
      if n = "Map" then some (.mapFn fun _ _ => [])
      else if n = "Reduce" then some (.reduceFn fun _ _ => "") else none }

/-- An environment in which every file opens as `examplePlugin`. -/
def examplePluginEnv : PluginEnv :=
  { openPlugin := fun _ => some examplePlugin }

/-- A plugin exporting `Map` and `Reduce` symbols of the wrong types. -/
def badTypedPlugin : GoPlugin :=
  { lookup := fun n =>
      if n = "Map" then some .other
      else if n = "Reduce" then some .other else none }

/-- An environment in which every file opens as `badTypedPlugin`. -/
def badTypedPluginEnv : PluginEnv :=
  { openPlugin := fun _ => some badTypedPlugin }

/-- The phase-controller consistency invariant: while Mapping, no
ReduceTasks have been materialized; once past Mapping, every MapTask is
Completed. -/
def PhaseInv (s : MRState) : Prop :=
  (s.phase = .mapping → s.reduceTasks = []) ∧
  (s.phase ≠ .mapping → allCompleted s.mapTasks = true)

/-! ## Theorems -/

theorem toPair_pairToKV (p : String × String) : (pairToKV p).toPair = p := rfl

theorem map_toPair_pairToKV (l : List (String × String)) :
    (l.map pairToKV).map KeyValuePair.toPair = l := by
  rw [List.map_map]
  have h : KeyValuePair.toPair ∘ pairToKV = id := funext fun _ => rfl
  rw [h, List.map_id]

theorem toPair_injective : Function.Injective KeyValuePair.toPair := by
  intro a b h
  cases a
  cases b
  simpa [KeyValuePair.toPair] using h

/-- Claim C5: the wire protocol defines exactly three remote operations with
fixed request/response shapes: Map takes a file path string and a
map-function name string and returns a list of (key, value) string pairs;
Reduce takes a list of (key, value) string pairs and a reduce-function name
string and returns a single string final result; Ping takes no payload and
returns a status string. -/
theorem wire_protocol_shapes :
    (∀ o : RpcOp, o = .map ∨ o = .reduce ∨ o = .ping) ∧
    (RpcOp.map ≠ .reduce ∧ RpcOp.map ≠ .ping ∧ RpcOp.reduce ≠ .ping) ∧
    requestType .map = MapRequest ∧ responseType .map = MapResponse ∧
    requestType .reduce = ReduceRequest ∧ responseType .reduce = ReduceResponse ∧
    requestType .ping = PingRequest ∧ responseType .ping = PingResponse ∧
    Function.Bijective MapRequest.shape ∧
    Function.Bijective MapResponse.shape ∧
    Function.Bijective ReduceRequest.shape ∧
    Function.Bijective ReduceResponse.shape ∧
    Function.Bijective PingRequest.shape ∧
    Function.Bijective PingResponse.shape := by
  refine ⟨fun o => by cases o <;> simp, by simp, rfl, rfl, rfl, rfl, rfl, rfl, ?_, ?_, ?_, ?_, ?_, ?_⟩
  · constructor
    · intro a b h
      cases a
      cases b
      simpa [MapRequest.shape] using h
    · intro p
      exact ⟨⟨p.1, p.2⟩, rfl⟩
  · constructor
    · intro a b h
      cases a
      cases b
      exact congrArg MapResponse.mk (List.map_injective_iff.mpr toPair_injective h)
    · intro l
      exact ⟨⟨l.map pairToKV⟩, map_toPair_pairToKV l⟩
  · constructor
    · intro a b h
      cases a
      cases b
      simp [ReduceRequest.shape] at h
      obtain ⟨h1, h2⟩ := h
      exact congrArg₂ ReduceRequest.mk (List.map_injective_iff.mpr toPair_injective h1) h2
    · intro p
      exact ⟨⟨p.1.map pairToKV, p.2⟩, by
        cases p with
        | mk a b => exact congrArg₂ Prod.mk (map_toPair_pairToKV a) rfl⟩
  · constructor
    · intro a b h
      cases a
      cases b
      simpa [ReduceResponse.shape] using h
    · intro v
      exact ⟨⟨v⟩, rfl⟩
  · constructor
    · intro a b _
      cases a
      cases b
      rfl
    · intro v
      cases v
      exact ⟨⟨⟩, rfl⟩
  · constructor
    · intro a b h
      cases a
      cases b
      simpa [PingResponse.shape] using h
    · intro v
      exact ⟨⟨v⟩, rfl⟩

/-- Claim C6: for every coordinator invocation, the entry point constructs
the coordinator with the ordered input-split list taken verbatim (order
preserved) from the command-line arguments from position 2 onward, and with
a reduce partition count R that is the fixed positive integer 10. -/
theorem coordinator_construction (args : List String) :
    (coordinatorInit args).inputSplits = args.drop 2 ∧
    (coordinatorInit args).inputSplits <:+ args ∧
    (coordinatorInit args).nReduce = 10 ∧
    0 < (coordinatorInit args).nReduce ∧
    (∀ init, run args = .coordinator init → init = coordinatorInit args) := by
  refine ⟨rfl, List.drop_suffix 2 args, rfl, by simp [coordinatorInit], fun init h => ?_⟩
  unfold run at h
  split at h
  · exact absurd h (by simp)
  · split at h
    · cases h
      rfl
    · split at h
      · exact absurd h (by simp)
      · exact absurd h (by simp)

/-- Witness for C6 at a concrete argument list. -/
theorem coordinator_construction_witness :
    (coordinatorInit ["main", "mrcoordinator", "pg-1.txt", "pg-2.txt"]).inputSplits =
      ["pg-1.txt", "pg-2.txt"] ∧
    (coordinatorInit ["main", "mrcoordinator", "pg-1.txt", "pg-2.txt"]).nReduce = 10 ∧
    run ["main", "mrcoordinator", "pg-1.txt", "pg-2.txt"] =
      .coordinator (coordinatorInit ["main", "mrcoordinator", "pg-1.txt", "pg-2.txt"]) := by
  have h := coordinator_construction ["main", "mrcoordinator", "pg-1.txt", "pg-2.txt"]
  exact ⟨h.1, h.2.2.1, rfl⟩

/-- Claim C9: `run` returns a non-nil error — starting neither a coordinator
nor a worker — exactly when there are fewer than three command-line
arguments or the first argument is neither "mrcoordinator" nor "mrworker";
the returned error distinguishes the too-few-arguments usage message from
the invalid-mode message. -/
theorem run_arg_validation (args : List String) :
    ((run args).isError = true ↔
      args.length < minArgs ∨
        (args.getD 1 "" ≠ coordinatorArg ∧ args.getD 1 "" ≠ workerArg)) ∧
    (run args = .usageError ↔ args.length < minArgs) ∧
    (∀ m, run args = .invalidMode m →
      m = args.getD 1 "" ∧ ¬ args.length < minArgs ∧ m ≠ coordinatorArg ∧ m ≠ workerArg) ∧
    (∀ m, (RunOutcome.usageError).isError = true ∧ (RunOutcome.invalidMode m).isError = true ∧
      RunOutcome.usageError ≠ RunOutcome.invalidMode m) := by
  refine ⟨?_, ?_, ?_, fun m => ⟨rfl, rfl, by simp⟩⟩
  · unfold run
    split
    · simp only [RunOutcome.isError]
      tauto
    · split
      · simp only [RunOutcome.isError]
        constructor
        · intro h
          cases h
        · intro h
          rcases h with h | h
          · omega
          · exact absurd (by assumption) h.1
      · split
        · simp only [RunOutcome.isError]
          constructor
          · intro h
            cases h
          · intro h
            rcases h with h | h
            · omega
            · exact absurd (by assumption) h.2
        · simp only [RunOutcome.isError, true_iff]
          right
          exact ⟨by assumption, by assumption⟩
  · unfold run
    split
    · next h => simp [h]
    · next h =>
      split
      · simp [h]
      · split
        · simp [h]
        · simp [h]
  · intro m h
    unfold run at h
    split at h
    · exact absurd h (by simp)
    · split at h
      · exact absurd h (by simp)
      · split at h
        · exact absurd h (by simp)
        · cases h
          exact ⟨rfl, by assumption, by assumption, by assumption⟩

/-- Witness for C9: one concrete too-few-arguments call and one concrete
invalid-mode call. -/
theorem run_arg_validation_witness :
    run ["main", "mrworker"] = .usageError ∧
    (run ["main", "badmode", "x.so"]).isError = true := by
  exact ⟨(run_arg_validation ["main", "mrworker"]).2.1.mpr (by decide),
    (run_arg_validation ["main", "badmode", "x.so"]).1.mpr (Or.inr ⟨by decide, by decide⟩)⟩

theorem coordinatorLoop_reaches (done : Nat → Bool) :
    ∀ n i, done (i + n) = true → coordinatorLoop done i (n + 1) = some (Except.ok ()) := by
  intro n
  induction n with
  | zero =>
    intro i h
    simpa [coordinatorLoop] using h
  | succ m ih =>
    intro i h
    by_cases hi : done i = true
    · simp [coordinatorLoop, hi]
    · have h' : done ((i + 1) + m) = true := by
        have : (i + 1) + m = i + (m + 1) := by omega
        rw [this]
        exact h
      simp only [coordinatorLoop, hi, if_neg, Bool.false_eq_true, if_false]
      exact ih (i + 1) h'

/-- Claim C8: the coordinator process exits only after the job reaches Done:
the polling loop of `runCoordinator` returns (always nil, never an error)
only after `Done()` has reported true, and if `Done()` never becomes true
the loop runs indefinitely without reporting completion; conversely if
`Done()` ever reports true the loop terminates with nil. -/
theorem coordinator_exits_only_after_done (done : Nat → Bool) :
    (∀ i fuel r, coordinatorLoop done i fuel = some r →
      r = Except.ok () ∧ ∃ k, i ≤ k ∧ done k = true) ∧
    ((∀ k, done k = false) → ∀ i fuel, coordinatorLoop done i fuel = none) ∧
    (∀ k, done k = true → ∃ fuel, coordinatorLoop done 0 fuel = some (Except.ok ())) := by
  refine ⟨?_, ?_, ?_⟩
  · intro i fuel
    induction fuel generalizing i with
    | zero =>
      intro r h
      simp [coordinatorLoop] at h
    | succ m ih =>
      intro r h
      by_cases hi : done i = true
      · simp [coordinatorLoop, hi] at h
        exact ⟨h.symm, i, le_refl i, hi⟩
      · simp only [coordinatorLoop, hi, Bool.false_eq_true, if_false] at h
        obtain ⟨hr, k, hk, hdk⟩ := ih (i + 1) r h
        exact ⟨hr, k, by omega, hdk⟩
  · intro hnever i fuel
    induction fuel generalizing i with
    | zero => rfl
    | succ m ih =>
      simp only [coordinatorLoop, hnever i, Bool.false_eq_true, if_false]
      exact ih (i + 1)
  · intro k hk
    exact ⟨k + 1, coordinatorLoop_reaches done k 0 (by simpa using hk)⟩

/-- Witness for C8: a `Done()` that first reports true on the second poll,
and a `Done()` that never reports true. -/
theorem coordinator_exits_only_after_done_witness :
    (Except.ok () = (Except.ok () : Except String Unit) ∧
      ∃ k, 0 ≤ k ∧ (fun n => decide (n = 1)) k = true) ∧
    coordinatorLoop (fun _ => false) 0 5 = none := by
  constructor
  · exact (coordinator_exits_only_after_done (fun n => decide (n = 1))).1 0 2
      (Except.ok ()) rfl
  · exact (coordinator_exits_only_after_done (fun _ => false)).2.1 (fun _ => rfl) 0 5

/-- Claim C7: the Worker Runtime resolves the Map and Reduce functions at
startup: `loadPlugin` returns both functions and nil error when the plugin
file opens and exports `Map` and `Reduce` (as function symbols of the
expected types), and returns a non-nil error — so `runWorker` returns that
error and the worker never starts — when the plugin cannot be opened or
either symbol is missing. -/
theorem load_plugin_resolution (env : PluginEnv) (args : List String) :
    (∀ p m r, env.openPlugin (args.getD 2 "") = some p →
      p.lookup "Map" = some (.mapFn m) → p.lookup "Reduce" = some (.reduceFn r) →
      loadPlugin env (args.getD 2 "") = .ok m r ∧ runWorker env args = .started m r) ∧
    (env.openPlugin (args.getD 2 "") = none →
      loadPlugin env (args.getD 2 "") =
        .err ("cannot load plugin " ++ args.getD 2 "")) ∧
    (∀ p, env.openPlugin (args.getD 2 "") = some p → p.lookup "Map" = none →
      loadPlugin env (args.getD 2 "") = .err "cannot find Map in plugin") ∧
    (∀ p s, env.openPlugin (args.getD 2 "") = some p → p.lookup "Map" = some s →
      p.lookup "Reduce" = none →
      loadPlugin env (args.getD 2 "") = .err "cannot find Reduce in plugin") ∧
    (∀ e, loadPlugin env (args.getD 2 "") = .err e → runWorker env args = .failed e) := by
  refine ⟨?_, ?_, ?_, ?_, ?_⟩
  · intro p m r hopen hmap hred
    have hload : loadPlugin env (args.getD 2 "") = .ok m r := by
      simp only [loadPlugin, hopen, hmap, hred]
    exact ⟨hload, by unfold runWorker; rw [hload]⟩
  · intro hopen
    simp only [loadPlugin, hopen]
  · intro p hopen hmap
    simp only [loadPlugin, hopen, hmap]
  · intro p s hopen hmap hred
    simp only [loadPlugin, hopen, hmap, hred]
  · intro e hload
    unfold runWorker
    rw [hload]

/-- Witness for C7: a concrete well-formed plugin environment in which the
worker starts with the two resolved functions. -/
theorem load_plugin_resolution_witness :
    loadPlugin examplePluginEnv "wc.so" = .ok (fun _ _ => []) (fun _ _ => "") ∧
    runWorker examplePluginEnv ["main", "mrworker", "wc.so"] =
      .started (fun _ _ => []) (fun _ _ => "") :=
  (load_plugin_resolution examplePluginEnv ["main", "mrworker", "wc.so"]).1
    examplePlugin (fun _ _ => []) (fun _ _ => "") rfl rfl rfl

/-- Claim C10: `loadPlugin`'s success path performs unchecked type
assertions on the resolved symbols: for a plugin exporting symbols named
`Map` and `Reduce` whose types are not the expected function types, the
worker process panics during startup instead of returning an error. -/
theorem load_plugin_panics_on_wrong_type :
    ∃ env : PluginEnv, ∃ file : String, ∃ p : GoPlugin,
      env.openPlugin file = some p ∧
      p.lookup "Map" = some .other ∧
      p.lookup "Reduce" = some .other ∧
      loadPlugin env file = .panicked ∧
      runWorker env ["main", "mrworker", file] = .panicked ∧
      (∀ m r, (LoadResult.panicked : LoadResult) ≠ .ok m r) ∧
      (∀ e, (LoadResult.panicked : LoadResult) ≠ .err e) :=
  ⟨badTypedPluginEnv, "bad.so", badTypedPlugin, rfl, rfl, rfl, rfl, rfl,
    fun _ _ h => LoadResult.noConfusion h, fun _ h => LoadResult.noConfusion h⟩

theorem markCompleted_of_completed (reg : Registry) (id : Nat) (x res' : String)
    (h : reg[id]? = some (.completed x)) : markCompleted reg id res' = reg := by
  simp only [markCompleted, h]

/-- Claim C2: once `markCompleted` has succeeded for a task, every
subsequent `markCompleted` call with the same identifier is a no-op (not an
error) that leaves the stored result unchanged, so a late response for a
task already completed elsewhere is discarded without altering final
results. -/
theorem mark_completed_dedup (reg : Registry) (id : Nat) (res : String)
    (hid : id < reg.length) (hnot : (reg.get ⟨id, hid⟩).isCompleted = false) :
    (markCompleted reg id res)[id]? = some (.completed res) ∧
    (∀ res', markCompleted (markCompleted reg id res) id res' = markCompleted reg id res) ∧
    (∀ res', (markCompleted (markCompleted reg id res) id res')[id]? =
      some (.completed res)) := by
  have hget : reg[id]? = some (reg.get ⟨id, hid⟩) := by
    rw [List.getElem?_eq_getElem hid]
    rfl
  have hset : markCompleted reg id res = reg.set id (.completed res) := by
    unfold markCompleted
    rw [hget]
    cases h : reg.get ⟨id, hid⟩ with
    | pending => rfl
    | dispatched w d => rfl
    | completed r =>
      rw [h] at hnot
      simp [TaskStatus.isCompleted] at hnot
  have hafter : (markCompleted reg id res)[id]? = some (.completed res) := by
    rw [hset]
    exact List.getElem?_set_eq_of_lt _ hid
  have hnoop : ∀ res',
      markCompleted (markCompleted reg id res) id res' = markCompleted reg id res :=
    fun res' => markCompleted_of_completed _ id res res' hafter
  exact ⟨hafter, hnoop, fun res' => by rw [hnoop res']; exact hafter⟩

/-- Witness for C2 at a one-task registry. -/
theorem mark_completed_dedup_witness :
    (markCompleted [TaskStatus.pending] 0 "v")[0]? = some (.completed "v") ∧
    (∀ res', markCompleted (markCompleted [TaskStatus.pending] 0 "v") 0 res' =
      markCompleted [TaskStatus.pending] 0 "v") ∧
    (∀ res', (markCompleted (markCompleted [TaskStatus.pending] 0 "v") 0 res')[0]? =
      some (.completed "v")) :=
  mark_completed_dedup [.pending] 0 "v" (by decide) (by decide)

/-- Claim C4: for a task that is Dispatched and whose deadline elapses,
`markTimedOut` transitions it back to Pending — but only if the task is
still Dispatched for the deadline that expired (a result arriving
concurrently wins, and a re-dispatch under a new deadline is untouched) —
making the task eligible for dispatch on a later scheduling pass. -/
theorem mark_timed_out_reassigns (reg : Registry) (id w dl : Nat) :
    (reg[id]? = some (.dispatched w dl) →
      (markTimedOut reg id dl)[id]? = some TaskStatus.pending ∧
      canDispatch (markTimedOut reg id dl) id) ∧
    (∀ res, reg[id]? = some (.completed res) → markTimedOut reg id dl = reg) ∧
    (reg[id]? = some TaskStatus.pending → markTimedOut reg id dl = reg) ∧
    (∀ w' dl', dl' ≠ dl → reg[id]? = some (.dispatched w' dl') →
      markTimedOut reg id dl = reg) := by
  refine ⟨?_, ?_, ?_, ?_⟩
  · intro h
    have hlt : id < reg.length := by
      by_contra hge
      rw [List.getElem?_eq_none (Nat.le_of_not_lt hge)] at h
      cases h
    have hres : markTimedOut reg id dl = reg.set id .pending := by
      simp only [markTimedOut, h, eq_self_iff_true, if_true]
    constructor
    · rw [hres]
      exact List.getElem?_set_eq_of_lt _ hlt
    · unfold canDispatch
      rw [hres]
      exact List.getElem?_set_eq_of_lt _ hlt
  · intro res h
    simp only [markTimedOut, h]
  · intro h
    simp only [markTimedOut, h]
  · intro w' dl' hne h
    simp only [markTimedOut, h, if_neg hne]

/-- Witness for C4 at a one-task registry holding a Dispatched task. -/
theorem mark_timed_out_reassigns_witness :
    (markTimedOut [TaskStatus.dispatched 4 9] 0 9)[0]? = some TaskStatus.pending ∧
    canDispatch (markTimedOut [TaskStatus.dispatched 4 9] 0 9) 0 :=
  (mark_timed_out_reassigns [.dispatched 4 9] 0 4 9).1 (by decide)

theorem allCompleted_markCompleted_eq (reg : Registry) (i : Nat) (res : String)
    (h : allCompleted reg = true) : markCompleted reg i res = reg := by
  unfold markCompleted
  cases hg : reg[i]? with
  | none => rfl
  | some st =>
    have hc : st.isCompleted = true :=
      List.all_eq_true.mp h st (List.getElem?_mem hg)
    cases st with
    | pending => simp [TaskStatus.isCompleted] at hc
    | dispatched w d => simp [TaskStatus.isCompleted] at hc
    | completed r => rfl

theorem allCompleted_markTimedOut_eq (reg : Registry) (i dl : Nat)
    (h : allCompleted reg = true) : markTimedOut reg i dl = reg := by
  unfold markTimedOut
  cases hg : reg[i]? with
  | none => rfl
  | some st =>
    have hc : st.isCompleted = true :=
      List.all_eq_true.mp h st (List.getElem?_mem hg)
    cases st with
    | pending => rfl
    | dispatched w d => simp [TaskStatus.isCompleted] at hc
    | completed r => rfl

theorem markCompleted_nil (i : Nat) (res : String) : markCompleted [] i res = [] := rfl

theorem markTimedOut_nil (i dl : Nat) : markTimedOut [] i dl = [] := rfl

theorem step_phase_mono (s s' : MRState) (h : Step s s') :
    s.phase.rank ≤ s'.phase.rank := by
  cases h with
  | dispatchMap i w dl h1 h2 => exact le_refl _
  | respondMap i res => exact le_refl _
  | timeoutMap i dl => exact le_refl _
  | toReducing R h1 h2 =>
    rw [h1]
    exact Nat.zero_le _
  | dispatchReduce i w dl h1 h2 => exact le_refl _
  | respondReduce i res => exact le_refl _
  | timeoutReduce i dl => exact le_refl _
  | toDone h1 h2 =>
    rw [h1]
    exact Nat.le_succ 1

theorem step_preserves_phaseInv (s s' : MRState) (hinv : PhaseInv s) (h : Step s s') :
    PhaseInv s' := by
  obtain ⟨h1, h2⟩ := hinv
  cases h with
  | dispatchMap i w dl hp hpend =>
    exact ⟨fun hm => h1 hm, fun hm => absurd hp hm⟩
  | respondMap i res =>
    refine ⟨h1, fun hm => ?_⟩
    have hc := h2 hm
    rw [allCompleted_markCompleted_eq _ _ _ hc]
    exact hc
  | timeoutMap i dl =>
    refine ⟨h1, fun hm => ?_⟩
    have hc := h2 hm
    rw [allCompleted_markTimedOut_eq _ _ _ hc]
    exact hc
  | toReducing R hp hall =>
    refine ⟨fun hm => ?_, fun _ => hall⟩
    simp at hm
  | dispatchReduce i w dl hp hpend =>
    refine ⟨fun hm => ?_, fun _ => h2 (by rw [hp]; decide)⟩
    rw [hp] at hm
    simp at hm
  | respondReduce i res =>
    refine ⟨fun hm => ?_, h2⟩
    rw [h1 hm]
    exact markCompleted_nil i res
  | timeoutReduce i dl =>
    refine ⟨fun hm => ?_, h2⟩
    rw [h1 hm]
    exact markTimedOut_nil i dl
  | toDone hp hall =>
    refine ⟨fun hm => ?_, fun _ => h2 (by rw [hp]; decide)⟩
    simp at hm

theorem reachable_phaseInv (M : Nat) (s : MRState) (h : Reachable M s) : PhaseInv s := by
  unfold Reachable at h
  induction h with
  | refl => exact ⟨fun _ => rfl, fun hm => absurd rfl hm⟩
  | tail hab hbc ih => exact step_preserves_phaseInv _ _ ih hbc

/-- Claim C1: along every job execution, the phase advances from Mapping to
Reducing only when every MapTask is Completed, advances to Done only when
every ReduceTask is Completed, the phase never regresses, and no ReduceTask
transitions out of Pending while any MapTask is not Completed. -/
theorem phase_ordering_invariant (M : Nat) (s s' : MRState)
    (hreach : Reachable M s) (hstep : Step s s') :
    s.phase.rank ≤ s'.phase.rank ∧
    (s.phase = .mapping → s'.phase ≠ .mapping → allCompleted s.mapTasks = true) ∧
    (s.phase ≠ .jobDone → s'.phase = .jobDone → allCompleted s.reduceTasks = true) ∧
    (∀ i : Nat, s.reduceTasks[i]? = some TaskStatus.pending → s'.reduceTasks[i]? ≠ some TaskStatus.pending →
      allCompleted s.mapTasks = true) := by
  have hinv := reachable_phaseInv M s hreach
  refine ⟨step_phase_mono s s' hstep, ?_, ?_, ?_⟩
  · cases hstep with
    | dispatchMap i w dl hp hpend => exact fun hm hm' => absurd hm hm'
    | respondMap i res => exact fun hm hm' => absurd hm hm'
    | timeoutMap i dl => exact fun hm hm' => absurd hm hm'
    | toReducing R hp hall => exact fun _ _ => hall
    | dispatchReduce i w dl hp hpend => exact fun hm hm' => absurd hm hm'
    | respondReduce i res => exact fun hm hm' => absurd hm hm'
    | timeoutReduce i dl => exact fun hm hm' => absurd hm hm'
    | toDone hp hall =>
      intro hm _
      rw [hp] at hm
      simp at hm
  · cases hstep with
    | dispatchMap i w dl hp hpend => exact fun hn hd => absurd hd hn
    | respondMap i res => exact fun hn hd => absurd hd hn
    | timeoutMap i dl => exact fun hn hd => absurd hd hn
    | toReducing R hp hall =>
      intro _ hd
      simp at hd
    | dispatchReduce i w dl hp hpend => exact fun hn hd => absurd hd hn
    | respondReduce i res => exact fun hn hd => absurd hd hn
    | timeoutReduce i dl => exact fun hn hd => absurd hd hn
    | toDone hp hall => exact fun _ _ => hall
  · intro i hp hnp
    by_cases hac : allCompleted s.mapTasks = true
    · exact hac
    · exfalso
      have hph : s.phase = .mapping := by
        by_contra hne
        exact hac (hinv.2 hne)
      rw [hinv.1 hph] at hp
      simp at hp

/-- Witness for C1: from the startup state with one map task, dispatching
that map task. -/
theorem phase_ordering_invariant_witness :
    (initState 1).phase.rank ≤
      ({ initState 1 with
          mapTasks := (initState 1).mapTasks.set 0 (.dispatched 3 7) } : MRState).phase.rank ∧
    ((initState 1).phase = .mapping →
      ({ initState 1 with
          mapTasks := (initState 1).mapTasks.set 0 (.dispatched 3 7) } : MRState).phase ≠ .mapping →
      allCompleted (initState 1).mapTasks = true) ∧
    ((initState 1).phase ≠ .jobDone →
      ({ initState 1 with
          mapTasks := (initState 1).mapTasks.set 0 (.dispatched 3 7) } : MRState).phase = .jobDone →
      allCompleted (initState 1).reduceTasks = true) ∧
    (∀ i : Nat, (initState 1).reduceTasks[i]? = some TaskStatus.pending →
      ({ initState 1 with
          mapTasks := (initState 1).mapTasks.set 0 (.dispatched 3 7) } : MRState).reduceTasks[i]? ≠
        some TaskStatus.pending →
      allCompleted (initState 1).mapTasks = true) :=
  phase_ordering_invariant 1 (initState 1) _ Relation.ReflTransGen.refl
    (Step.dispatchMap (initState 1) 0 3 7 rfl rfl)

theorem map_fst_groupByKey (l : List (String × String)) :
    (groupByKey l).map Prod.fst = (l.map Prod.fst).dedup := by
  unfold groupByKey
  rw [List.map_map]
  have h : (Prod.fst ∘ fun k : String =>
      (k, (l.filter (fun kv => kv.1 = k)).map Prod.snd)) = id :=
    funext fun _ => rfl
  rw [h, List.map_id]

theorem mem_groupByKey_iff (l : List (String × String)) (e : String × List String) :
    e ∈ groupByKey l ↔
      e.1 ∈ (l.map Prod.fst).dedup ∧
      e.2 = (l.filter (fun kv => kv.1 = e.1)).map Prod.snd := by
  unfold groupByKey
  constructor
  · intro he
    obtain ⟨k, hk, hke⟩ := List.mem_map.mp he
    cases hke
    exact ⟨hk, rfl⟩
  · intro he
    refine List.mem_map.mpr ⟨e.1, he.1, ?_⟩
    rw [← he.2]

theorem filter_key_partition (hash : String → Nat) (R : Nat)
    (buffer : List (String × String)) (k : String) :
    (buffer.filter (fun kv => hash kv.1 % R = hash k % R)).filter
        (fun kv => kv.1 = k) =
      buffer.filter (fun kv => kv.1 = k) := by
  rw [List.filter_filter]
  apply List.filter_congr
  intro kv _
  by_cases h : kv.1 = k
  · simp [h]
  · simp [h]

/-- Claim C3: every intermediate record with key K is routed to exactly one
of the R partitions, namely hash(K) mod R, and within each partition all
records sharing a key are grouped into one sequence of values before the
corresponding Reduce call. -/
theorem partition_correctness (hash : String → Nat) (R : Nat)
    (buffer : List (String × String)) (k v : String)
    (hR : 0 < R) (hmem : (k, v) ∈ buffer) :
    hash k % R < R ∧
    (partitionForReduce hash R buffer)[hash k % R]? =
      some (groupByKey (buffer.filter (fun kv => hash kv.1 % R = hash k % R))) ∧
    (k, (buffer.filter (fun kv => kv.1 = k)).map Prod.snd) ∈
      groupByKey (buffer.filter (fun kv => hash kv.1 % R = hash k % R)) ∧
    v ∈ (buffer.filter (fun kv => kv.1 = k)).map Prod.snd ∧
    ((groupByKey (buffer.filter (fun kv => hash kv.1 % R = hash k % R))).map
      Prod.fst).count k = 1 ∧
    (∀ p : Nat, p < R → p ≠ hash k % R →
      ∀ e ∈ groupByKey (buffer.filter (fun kv => hash kv.1 % R = p)), e.1 ≠ k) := by
  have hlt : hash k % R < R := Nat.mod_lt _ hR
  have hmemf : (k, v) ∈ buffer.filter (fun kv => hash kv.1 % R = hash k % R) :=
    List.mem_filter.mpr ⟨hmem, by simp⟩
  have hkdedup : k ∈ ((buffer.filter
      (fun kv => hash kv.1 % R = hash k % R)).map Prod.fst).dedup :=
    List.mem_dedup.mpr (List.mem_map.mpr ⟨(k, v), hmemf, rfl⟩)
  refine ⟨hlt, ?_, ?_, ?_, ?_, ?_⟩
  · unfold partitionForReduce
    rw [List.getElem?_map, List.getElem?_range hlt]
    rfl
  · refine (mem_groupByKey_iff _ _).mpr ⟨hkdedup, ?_⟩
    rw [filter_key_partition]
  · exact List.mem_map.mpr ⟨(k, v), List.mem_filter.mpr ⟨hmem, by simp⟩, rfl⟩
  · rw [map_fst_groupByKey]
    exact List.count_eq_one_of_mem (List.nodup_dedup _) hkdedup
  · intro p hpR hpne e he hek
    obtain ⟨h1, _⟩ := (mem_groupByKey_iff _ _).mp he
    obtain ⟨kv, hkv, hfst⟩ := List.mem_map.mp (List.mem_dedup.mp h1)
    obtain ⟨_, hpred⟩ := List.mem_filter.mp hkv
    have hkp : hash kv.1 % R = p := by simpa using hpred
    rw [hfst, hek] at hkp
    exact hpne hkp.symm

/-- Witness for C3 at a concrete buffer, with `String.length` as the hash
and R = 2. -/
theorem partition_correctness_witness :
    String.length "a" % 2 < 2 ∧
    (partitionForReduce String.length 2
        [("a", "1"), ("bb", "2"), ("a", "3")])[String.length "a" % 2]? =
      some (groupByKey ([("a", "1"), ("bb", "2"), ("a", "3")].filter
        (fun kv => String.length kv.1 % 2 = String.length "a" % 2))) ∧
    ("a", ([("a", "1"), ("bb", "2"), ("a", "3")].filter
        (fun kv => kv.1 = "a")).map Prod.snd) ∈
      groupByKey ([("a", "1"), ("bb", "2"), ("a", "3")].filter
        (fun kv => String.length kv.1 % 2 = String.length "a" % 2)) ∧
    "1" ∈ ([("a", "1"), ("bb", "2"), ("a", "3")].filter
        (fun kv => kv.1 = "a")).map Prod.snd ∧
    ((groupByKey ([("a", "1"), ("bb", "2"), ("a", "3")].filter
        (fun kv => String.length kv.1 % 2 = String.length "a" % 2))).map
      Prod.fst).count "a" = 1 ∧
    (∀ p : Nat, p < 2 → p ≠ String.length "a" % 2 →
      ∀ e ∈ groupByKey ([("a", "1"), ("bb", "2"), ("a", "3")].filter
        (fun kv => String.length kv.1 % 2 = p)), e.1 ≠ "a") :=
  partition_correctness String.length 2 [("a", "1"), ("bb", "2"), ("a", "3")]
    "a" "1" (by decide) (by simp)

end MapReduce
